import Mathlib

/-!
Shallow embedding of the multi-track mixing engine of
src/libraries/lib-sample-track/Mix.cpp (class Mixer).

Doubles are modelled as rationals: every operation on times and speeds in
the embedded fragments (std::clamp, fabs, comparisons, the constants 0 and
std::numeric_limits of double max) is exact on its arguments, so the
rational model is faithful to IEEE double behaviour of the source.

MixerSource (MixerSource.cpp) is a collaborator whose code is not part of
this tree; its Acquire is modelled from the spec as an abstract outcome:
an optional frame count together with its net effect on the shared
current-time field (the spec notes acquisition may read slightly beyond
the stop time for resampling lookahead).
-/

namespace Mix

/-- Embedding of std::clamp(v, lo, hi) as used at Mix.cpp lines 198-200 and
263-265: comparisons only, no arithmetic. -/
def clampQ (v lo hi : ℚ) : ℚ :=
  if v < lo then lo else if hi < v then hi else v

/-- Track::ChannelType. The named constructors are the three enum values;
OtherChannel stands for any out-of-enum value, which the switch in
findChannelFlags sends to its default branch. -/
inductive ChannelType where
  | LeftChannel
  | RightChannel
  | MonoChannel
  | OtherChannel
deriving DecidableEq

/-- Embedding of the findChannelFlags lambda of Mixer::Process
(Mix.cpp lines 142-165).  The explicit map is modelled as a function from
output-channel index to bool; the produced flag vector has numChannels
entries, as the C++ fills exactly channelFlags[0..numChannels). -/
def findChannelFlags (numChannels : ℕ) (map : Option (ℕ → Bool))
    (channel : ChannelType) : List Bool :=
  match map with
  | some m => (List.range numChannels).map m
  | none =>
    match channel with
    | ChannelType.LeftChannel => (List.range numChannels).map (fun c => c == 0)
    | ChannelType.RightChannel =>
      if 2 ≤ numChannels then (List.range numChannels).map (fun c => c == 1)
      else (List.range numChannels).map (fun c => c == 0)
    | _ => List.replicate numChannels true

/-- The TimesAndSpeed record shared by the mixer and its sources
(destructured in Mix.cpp as auto and [mT0, mT1, mSpeed, mTime]). -/
structure TimesAndSpeed where
  mT0 : ℚ
  mT1 : ℚ
  mSpeed : ℚ
  mTime : ℚ
deriving DecidableEq

/-- Modelled from the spec: one MixerSource (MixerSource.cpp is not in this
tree).  Acquire is abstracted by its outcome for a given bound (acqResult,
an optional frame count) and by its net effect on the shared current time
(acqTime; the spec allows acquisition to move the time slightly beyond the
stop bound for resampling lookahead).  floatData j k is the sample at index
k of float-buffer channel j after a successful Acquire (GetReadPosition j);
channelType j, mixerMap j and channelGain j c embed GetChannel(j) roles,
MixerSpec(j) and GetChannelGain(c). -/
structure SourceModel where
  acqResult : ℕ → Option ℕ
  acqTime : ℚ → ℚ
  channels : ℕ
  floatData : ℕ → ℕ → ℚ
  channelType : ℕ → ChannelType
  mixerMap : ℕ → Option (ℕ → Bool)
  channelGain : ℕ → ℕ → ℚ

/-- Channel capacity of mFloatBuffers: the member is constructed as
mFloatBuffers{ 2, mBufferSize, 1, 1 } (Mix.cpp line 66, first argument the
channel count of AudioGraph::Buffers), hard-coded to 2 pending the
"TODO: more-than-two-channels" noted there. -/
def floatBuffersChannels : ℕ := 2

/-- Inner loop of MixBuffers (Mix.cpp lines 119-120): dest[j] += src[j]*gain
for j below len, other entries untouched; k is the running index. -/
def addSamples (src : ℕ → ℚ) (gain : ℚ) : ℕ → ℕ → List ℚ → List ℚ
  | _, _, [] => []
  | k, len, x :: xs =>
    (if k < len then x + src k * gain else x) :: addSamples src gain (k + 1) len xs

/-- Channel loop of MixBuffers (Mix.cpp lines 109-122); c is the running
output-channel index, dests the per-channel accumulation buffers. -/
def mixBuffersGo (numChannels : ℕ) (flags : List Bool) (gains : ℕ → ℚ)
    (src : ℕ → ℚ) (len : ℕ) : ℕ → List (List ℚ) → List (List ℚ)
  | _, [] => []
  | c, dest :: rest =>
    (if c < numChannels ∧ flags.getD c false then addSamples src (gains c) 0 len dest
     else dest) :: mixBuffersGo numChannels flags gains src len (c + 1) rest

/-- MixBuffers (Mix.cpp lines 109-122). -/
def MixBuffers (numChannels : ℕ) (flags : List Bool) (gains : ℕ → ℚ)
    (src : ℕ → ℚ) (dests : List (List ℚ)) (len : ℕ) : List (List ℚ) :=
  mixBuffersGo numChannels flags gains src len 0 dests

/-- Per-source channel loop of Mixer::Process (Mix.cpp lines 184-194):
iterates j below limit = min(source.Channels(), mFloatBuffers.Channels()),
fetching gains (all one when track gains are not applied), flags, and
accumulating this source's float data into the temp buffers; count is the
frame count this source's Acquire returned (the len passed to MixBuffers). -/
def processSourceChannels (numChannels : ℕ) (applyGains : Bool)
    (s : SourceModel) (count : ℕ) (temp : List (List ℚ)) : List (List ℚ) :=
  (List.range (min s.channels floatBuffersChannels)).foldl
    (fun acc j =>
      MixBuffers numChannels
        (findChannelFlags numChannels (s.mixerMap j) (s.channelType j))
        (if applyGains then s.channelGain j else fun _ => (1 : ℚ))
        (s.floatData j) acc count)
    temp

/-- Result of the source loop of Mixer::Process: the accumulated maximum
frame count (none when some Acquire failed), the shared time after the
acquires that ran, the temp buffers, how many sources were asked to
Acquire, and per processed source the number of its channels mixed. -/
structure LoopResult where
  maxOut : Option ℕ
  time : ℚ
  temp : List (List ℚ)
  asked : ℕ
  mixedCounts : List ℕ
deriving DecidableEq

/-- The source loop of Mixer::Process (Mix.cpp lines 176-195): each source
is asked to Acquire in order; on a none result the loop aborts (return 0
at line 179 - later sources are not asked); otherwise maxOut accumulates
the maximum and the source's channels are mixed into temp. -/
def processLoop (numChannels : ℕ) (applyGains : Bool) (bound : ℕ) :
    List SourceModel → ℚ → List (List ℚ) → LoopResult
  | [], t, temp => ⟨some 0, t, temp, 0, []⟩
  | s :: rest, t, temp =>
    match s.acqResult bound with
    | none => ⟨none, s.acqTime t, temp, 1, []⟩
    | some n =>
      let r := processLoop numChannels applyGains bound rest (s.acqTime t)
        (processSourceChannels numChannels applyGains s n temp)
      ⟨r.maxOut.map (Nat.max n), r.time, r.temp, r.asked + 1,
        min s.channels floatBuffersChannels :: r.mixedCounts⟩

/-- The Mixer state that Process, Reposition and the scrubbing calls read:
configuration fields and the constructed sources (Mix.cpp lines 53-74). -/
structure Mixer where
  mNumChannels : ℕ
  mBufferSize : ℕ
  mApplyTrackGains : Bool
  mInterleaved : Bool
  mTimesAndSpeed : TimesAndSpeed
  mSources : List SourceModel

/-- Observable outcome of one Mixer::Process call: the returned frame
count, the shared current time afterwards, the accumulation buffers, how
many sources were asked to Acquire, and per processed source how many of
its channels were mixed. -/
structure ProcessResult where
  frames : ℕ
  time : ℚ
  temp : List (List ℚ)
  asked : ℕ
  mixedCounts : List ℕ
deriving DecidableEq

/-- Mixer::Process (Mix.cpp lines 126-218): clears the temp buffers, runs
the source loop (aborting with 0 frames on a failed Acquire, skipping the
clamp), else clamps the shared time between the entry time and mT1 in the
playback direction (backwards iff mT0 > mT1) and returns maxOut. -/
def Mixer.Process (m : Mixer) (maxToProcess : ℕ) : ProcessResult :=
  let ts := m.mTimesAndSpeed
  let r := processLoop m.mNumChannels m.mApplyTrackGains maxToProcess m.mSources
    ts.mTime (List.replicate m.mNumChannels (List.replicate m.mBufferSize (0 : ℚ)))
  match r.maxOut with
  | none => ⟨0, r.time, r.temp, r.asked, r.mixedCounts⟩
  | some maxOut =>
    ⟨maxOut,
     if ts.mT0 > ts.mT1 then clampQ r.time ts.mT1 ts.mTime
     else clampQ r.time ts.mTime ts.mT1,
     r.temp, r.asked, r.mixedCounts⟩

/-- Outcome of Mixer::Reposition: the updated shared state and, per source,
the (time, bSkipping) arguments of the MixerSource::Reposition call made
for it (Mix.cpp lines 267-268). -/
structure RepositionResult where
  ts : TimesAndSpeed
  sourceCalls : List (ℚ × Bool)
deriving DecidableEq

/-- Mixer::Reposition (Mix.cpp lines 257-269): sets mTime to t, clamps it
between mT1 and mT0 when backwards (mT1 < mT0) and between mT0 and mT1
otherwise, then repositions every source to the clamped time. -/
def Mixer.Reposition (m : Mixer) (t : ℚ) (bSkipping : Bool) : RepositionResult :=
  let ts := m.mTimesAndSpeed
  let newTime := if ts.mT1 < ts.mT0 then clampQ t ts.mT1 ts.mT0
    else clampQ t ts.mT0 ts.mT1
  ⟨{ ts with mTime := newTime }, m.mSources.map fun _ => (newTime, bSkipping)⟩

/-- The exact value of std::numeric_limits of double max, the sentinel
used by Mixer::SetSpeedForKeyboardScrubbing: (2 - 2^-52) * 2^1023. -/
def dblMax : ℚ := 2 ^ 1024 - 2 ^ 971

/-- Outcome of Mixer::SetSpeedForKeyboardScrubbing: the updated shared
state and the per-source reposition calls made (empty when no direction
flip occurred, since Reposition is only called inside the flip branch). -/
structure ScrubResult where
  ts : TimesAndSpeed
  sourceCalls : List (ℚ × Bool)
deriving DecidableEq

/-- Mixer::SetSpeedForKeyboardScrubbing (Mix.cpp lines 281-304): on a
direction conflict the bounds are reset to the 0 / double-max sentinel
pair and Reposition(startTime, true) runs against the new bounds; in every
case the stored speed becomes fabs(speed).  The wxASSERT(isfinite(speed))
precondition is inherent in the rational model; the function is total
(the call does not throw). -/
def Mixer.SetSpeedForKeyboardScrubbing (m : Mixer) (speed startTime : ℚ) :
    ScrubResult :=
  let ts := m.mTimesAndSpeed
  if (speed > 0 ∧ ts.mT1 < ts.mT0) ∨ (speed < 0 ∧ ts.mT1 > ts.mT0) then
    let ts1 := if speed > 0 ∧ ts.mT1 < ts.mT0 then
        { ts with mT0 := 0, mT1 := dblMax }
      else
        { ts with mT0 := dblMax, mT1 := 0 }
    let r := Mixer.Reposition { m with mTimesAndSpeed := ts1 } startTime true
    ⟨{ r.ts with mSpeed := |speed| }, r.sourceCalls⟩
  else
    ⟨{ ts with mSpeed := |speed| }, []⟩

/-- The caller-supplied MixerSpec: its declared output-channel and track
counts and its per-track-row, per-output-channel boolean map mMap. -/
structure MixerSpec where
  numChannels : ℕ
  numTracks : ℕ
  mMap : ℕ → ℕ → Bool

/-- The constructor's validation of the supplied mixerSpec (Mix.cpp lines
79-82): the spec is used only when its channel count equals mNumChannels
and its track count equals the number of input tracks; otherwise the
pointer is replaced by null (the spec is treated as absent). -/
def effectiveMixerSpec (mixerSpec : Option MixerSpec) (mNumChannels nTracks : ℕ) :
    Option MixerSpec :=
  match mixerSpec with
  | some spec =>
    if spec.numChannels = mNumChannels ∧ spec.numTracks = nTracks then some spec
    else none
  | none => none

/-- The constructor's source-building loop (Mix.cpp lines 84-96) projected
onto the per-source mixer-spec rows: walking the channel-group sizes with
running flat index i, each source receives a pointer to row block i of the
effective spec (or null), and the loop breaks if a group would overrun
nTracks (the asserted inconsistency guard at lines 87-90). -/
def mkSourceSpecs (pMixerSpec : Option MixerSpec) (nTracks : ℕ) :
    List ℕ → ℕ → List (Option (ℕ → ℕ → Bool))
  | [], _ => []
  | nInChannels :: rest, i =>
    if i + nInChannels > nTracks then []
    else (pMixerSpec.map fun spec => fun j c => spec.mMap (i + j) c) ::
      mkSourceSpecs pMixerSpec nTracks rest (i + nInChannels)

/-- The construction-time observables of Mixer::Mixer (Mix.cpp lines
44-97): configuration, the initial TimesAndSpeed
{startTime, stopTime, initialSpeed, startTime}, the per-source spec rows,
and the allocated output buffers mBuffer, recorded by their sample
capacities: one buffer of size bufferSize * numOutChannels when
interleaved, else numOutChannels buffers of size bufferSize each
(lines 70-74). -/
structure MixerInit where
  numChannels : ℕ
  bufferSize : ℕ
  interleaved : Bool
  timesAndSpeed : TimesAndSpeed
  sourceSpecs : List (Option (ℕ → ℕ → Bool))
  buffers : List ℕ

/-- Mixer::Mixer (Mix.cpp lines 44-97) restricted to the observables of
MixerInit.  channelCounts lists the channel-group size of each leader in
input order; nTracks is inputTracks.size(). -/
def Mixer.construct (startTime stopTime initialSpeed : ℚ)
    (numOutChannels bufferSize : ℕ) (interleaved : Bool)
    (mixerSpec : Option MixerSpec) (nTracks : ℕ) (channelCounts : List ℕ) :
    MixerInit :=
  { numChannels := numOutChannels
    bufferSize := bufferSize
    interleaved := interleaved
    timesAndSpeed := ⟨startTime, stopTime, initialSpeed, startTime⟩
    sourceSpecs :=
      mkSourceSpecs (effectiveMixerSpec mixerSpec numOutChannels nTracks)
        nTracks channelCounts 0
    buffers := List.replicate (if interleaved then 1 else numOutChannels)
      (bufferSize * (if interleaved then numOutChannels else 1)) }

/-- Mixer::GetBuffer(int channel) (Mix.cpp lines 225-228) indexes
mBuffer[channel] with no bounds check; the model returns the capacity of
the accessed buffer, or none when the access is out of bounds of the
mBuffer vector. -/
def Mixer.GetBufferCh (m : MixerInit) (channel : ℕ) : Option ℕ :=
  m.buffers.get? channel

/-! Helper lemmas about the embedded operations. -/

theorem clampQ_bounds (v lo hi : ℚ) (h : lo ≤ hi) :
    lo ≤ clampQ v lo hi ∧ clampQ v lo hi ≤ hi := by
  unfold clampQ
  split_ifs with h1 h2 <;> constructor <;> linarith

theorem clampQ_eq_self (v lo hi : ℚ) (h1 : lo ≤ v) (h2 : v ≤ hi) :
    clampQ v lo hi = v := by
  unfold clampQ
  split_ifs with g1 g2
  · linarith
  · linarith
  · rfl

theorem processLoop_maxOut_le (nc : ℕ) (ag : Bool) (bound : ℕ) :
    ∀ (l : List SourceModel) (t : ℚ) (temp : List (List ℚ)),
      (∀ s ∈ l, ∀ k, s.acqResult bound = some k → k ≤ bound) →
      ∀ res, (processLoop nc ag bound l t temp).maxOut = some res → res ≤ bound := by
  intro l
  induction l with
  | nil =>
    intro t temp _ res hres
    simp [processLoop] at hres
    omega
  | cons s rest ih =>
    intro t temp h res hres
    cases hs : s.acqResult bound with
    | none => simp [processLoop, hs] at hres
    | some n =>
      simp only [processLoop, hs] at hres
      obtain ⟨k, hk, rfl⟩ := Option.map_eq_some'.mp hres
      have hn : n ≤ bound := h s (by simp) n hs
      have hk' : k ≤ bound :=
        ih (s.acqTime t) (processSourceChannels nc ag s n temp)
          (fun p hp => h p (by simp [hp])) k hk
      exact max_le hn hk'

theorem processLoop_abort (nc : ℕ) (ag : Bool) (bound : ℕ) (s : SourceModel)
    (hs : s.acqResult bound = none) :
    ∀ (pre : List SourceModel) (post : List SourceModel) (t : ℚ)
      (temp : List (List ℚ)),
      (∀ p ∈ pre, (p.acqResult bound).isSome = true) →
      (processLoop nc ag bound (pre ++ s :: post) t temp).maxOut = none ∧
      (processLoop nc ag bound (pre ++ s :: post) t temp).asked = pre.length + 1 := by
  intro pre
  induction pre with
  | nil =>
    intro post t temp _
    simp [processLoop, hs]
  | cons p pre ih =>
    intro post t temp hpre
    obtain ⟨n, hn⟩ := Option.isSome_iff_exists.mp (hpre p (by simp))
    have h2 := ih post (p.acqTime t) (processSourceChannels nc ag p n temp)
      (fun q hq => hpre q (by simp [hq]))
    simp only [List.cons_append, processLoop, hn]
    simp [h2.1, h2.2]

/-- C1: For every call to Process(maxFrames) with maxFrames at most the
configured buffer size, the returned frame count (the maximum over sources
of the frames each Acquire returned) is at most maxFrames.  The bound on
each Acquire result is the spec's contract for MixerSource::Acquire
(frameCount at most maxFrames), taken as a hypothesis since
MixerSource.cpp is not part of this tree. -/
theorem process_frames_le (m : Mixer) (maxToProcess : ℕ)
    (hbuf : maxToProcess ≤ m.mBufferSize)
    (hacq : ∀ s ∈ m.mSources, ∀ k, s.acqResult maxToProcess = some k →
      k ≤ maxToProcess) :
    (Mixer.Process m maxToProcess).frames ≤ maxToProcess := by
  simp only [Mixer.Process]
  cases hmo : (processLoop m.mNumChannels m.mApplyTrackGains maxToProcess m.mSources
      m.mTimesAndSpeed.mTime
      (List.replicate m.mNumChannels (List.replicate m.mBufferSize (0 : ℚ)))).maxOut with
  | none => simp [hmo]
  | some mo =>
    simp only [hmo]
    exact processLoop_maxOut_le _ _ _ _ _ _ hacq mo hmo

def srcC1 : SourceModel :=
  ⟨fun _ => some 3, fun t => t, 1, fun _ _ => 0,
   fun _ => ChannelType.MonoChannel, fun _ => none, fun _ _ => 1⟩

def mixerC1 : Mixer := ⟨1, 4, false, false, ⟨0, 10, 1, 5⟩, [srcC1]⟩

theorem process_frames_le_witness : (Mixer.Process mixerC1 4).frames ≤ 4 :=
  process_frames_le mixerC1 4 (by norm_num [mixerC1])
    (by
      intro s hs k hk
      simp [mixerC1] at hs
      subst hs
      simp [srcC1] at hk
      omega)

/-- C2: if any Source Adapter's Acquire returns none, Process aborts the
whole call and returns 0 frames, and Source Adapters later in the
input-track order are not asked to acquire in that call (the count of
sources asked is the failing source's position plus one, leaving exactly
the later sources unasked). -/
theorem process_aborts_on_failed_acquire (m : Mixer) (maxToProcess : ℕ)
    (pre post : List SourceModel) (s : SourceModel)
    (hsplit : m.mSources = pre ++ s :: post)
    (hpre : ∀ p ∈ pre, (p.acqResult maxToProcess).isSome = true)
    (hs : s.acqResult maxToProcess = none) :
    (Mixer.Process m maxToProcess).frames = 0 ∧
    (Mixer.Process m maxToProcess).asked = pre.length + 1 ∧
    (Mixer.Process m maxToProcess).asked + post.length = m.mSources.length := by
  have h := processLoop_abort m.mNumChannels m.mApplyTrackGains maxToProcess s hs
    pre post m.mTimesAndSpeed.mTime
    (List.replicate m.mNumChannels (List.replicate m.mBufferSize (0 : ℚ))) hpre
  rw [← hsplit] at h
  simp only [Mixer.Process, h.1]
  refine ⟨by trivial, h.2, ?_⟩
  rw [h.2, hsplit]
  simp
  omega

def srcC2ok : SourceModel :=
  ⟨fun _ => some 2, fun t => t, 1, fun _ _ => 0,
   fun _ => ChannelType.MonoChannel, fun _ => none, fun _ _ => 1⟩

def srcC2bad : SourceModel :=
  ⟨fun _ => none, fun t => t, 1, fun _ _ => 0,
   fun _ => ChannelType.MonoChannel, fun _ => none, fun _ _ => 1⟩

def srcC2unasked : SourceModel :=
  ⟨fun _ => some 4, fun t => t, 1, fun _ _ => 0,
   fun _ => ChannelType.MonoChannel, fun _ => none, fun _ _ => 1⟩

def mixerC2 : Mixer :=
  ⟨1, 4, false, false, ⟨0, 10, 1, 5⟩, [srcC2ok, srcC2bad, srcC2unasked]⟩

theorem process_aborts_on_failed_acquire_witness :
    (Mixer.Process mixerC2 4).frames = 0 ∧
    (Mixer.Process mixerC2 4).asked = 1 + 1 ∧
    (Mixer.Process mixerC2 4).asked + 1 = mixerC2.mSources.length := by
  have h := process_aborts_on_failed_acquire mixerC2 4 [srcC2ok] [srcC2unasked]
    srcC2bad (by simp [mixerC2]) (by intro p hp; simp at hp; subst hp; rfl)
    (by rfl)
  simpa using h

theorem processLoop_complete (nc : ℕ) (ag : Bool) (bound : ℕ) :
    ∀ (l : List SourceModel) (t : ℚ) (temp : List (List ℚ)),
      (∀ s ∈ l, (s.acqResult bound).isSome = true) →
      (processLoop nc ag bound l t temp).maxOut.isSome = true := by
  intro l
  induction l with
  | nil => intro t temp _; simp [processLoop]
  | cons s rest ih =>
    intro t temp h
    obtain ⟨n, hn⟩ := Option.isSome_iff_exists.mp (h s (by simp))
    simp only [processLoop, hn]
    have h2 := ih (s.acqTime t) (processSourceChannels nc ag s n temp)
      (fun p hp => h p (by simp [hp]))
    obtain ⟨k, hk⟩ := Option.isSome_iff_exists.mp h2
    simp [hk]

/-- A source whose Acquire succeeds but leaves the shared current time at
11, slightly beyond the stop bound, as the spec allows for resampling
lookahead (it contributes no channels, so the buffers are untouched). -/
def srcC3over : SourceModel :=
  ⟨fun _ => some 4, fun _ => 11, 0, fun _ _ => 0,
   fun _ => ChannelType.MonoChannel, fun _ => none, fun _ _ => 1⟩

/-- A drained source whose Acquire returns none. -/
def srcC3fail : SourceModel :=
  ⟨fun _ => none, fun t => t, 0, fun _ _ => 0,
   fun _ => ChannelType.MonoChannel, fun _ => none, fun _ _ => 1⟩

def mixerC3cex : Mixer :=
  ⟨1, 4, false, false, ⟨0, 10, 1, 5⟩, [srcC3over, srcC3fail]⟩

/-- C3 counterexample: a mixer with t0 = 0, t1 = 10 and entry time 5 (in
bounds); the first source's successful Acquire moves the shared time to 11
and the second source's Acquire fails, so Process returns through the
early abort at Mix.cpp line 179, skipping the clamp at lines 197-200, and
the time after the call is 11, outside [min(t0,t1), max(t0,t1)]. -/
theorem process_time_invariant_cex :
    (min mixerC3cex.mTimesAndSpeed.mT0 mixerC3cex.mTimesAndSpeed.mT1 ≤
       mixerC3cex.mTimesAndSpeed.mTime ∧
     mixerC3cex.mTimesAndSpeed.mTime ≤
       max mixerC3cex.mTimesAndSpeed.mT0 mixerC3cex.mTimesAndSpeed.mT1) ∧
    (Mixer.Process mixerC3cex 4).time = 11 ∧
    ¬ (min mixerC3cex.mTimesAndSpeed.mT0 mixerC3cex.mTimesAndSpeed.mT1 ≤
         (Mixer.Process mixerC3cex 4).time ∧
       (Mixer.Process mixerC3cex 4).time ≤
         max mixerC3cex.mTimesAndSpeed.mT0 mixerC3cex.mTimesAndSpeed.mT1) := by
  refine ⟨by norm_num [mixerC3cex], ?_, ?_⟩ <;>
    simp [Mixer.Process, processLoop, processSourceChannels, mixerC3cex,
      srcC3over, srcC3fail, floatBuffersChannels] <;>
    norm_num

/-- C3 (amended): for every Process call in which every source's Acquire
succeeds (the call is not aborted at Mix.cpp line 179), if the entry
current time lies within [min(t0,t1), max(t0,t1)] then so does the time
after the call: the clamp at lines 197-200 keeps it between the entry time
and mT1 in the playback direction.  An aborted call skips the clamp and
leaves the time wherever acquisition put it. -/
theorem process_time_in_bounds (m : Mixer) (n : ℕ)
    (hlo : min m.mTimesAndSpeed.mT0 m.mTimesAndSpeed.mT1 ≤ m.mTimesAndSpeed.mTime)
    (hhi : m.mTimesAndSpeed.mTime ≤ max m.mTimesAndSpeed.mT0 m.mTimesAndSpeed.mT1)
    (hall : ∀ s ∈ m.mSources, (s.acqResult n).isSome = true) :
    min m.mTimesAndSpeed.mT0 m.mTimesAndSpeed.mT1 ≤ (Mixer.Process m n).time ∧
    (Mixer.Process m n).time ≤
      max m.mTimesAndSpeed.mT0 m.mTimesAndSpeed.mT1 := by
  obtain ⟨mo, hmo⟩ := Option.isSome_iff_exists.mp
    (processLoop_complete m.mNumChannels m.mApplyTrackGains n m.mSources
      m.mTimesAndSpeed.mTime
      (List.replicate m.mNumChannels (List.replicate m.mBufferSize (0 : ℚ))) hall)
  simp only [Mixer.Process, hmo]
  by_cases hb : m.mTimesAndSpeed.mT1 < m.mTimesAndSpeed.mT0
  · have hmin := min_eq_right (le_of_lt hb)
    have hmax := max_eq_left (le_of_lt hb)
    rw [hmin] at hlo
    rw [hmax] at hhi
    have h := clampQ_bounds (processLoop m.mNumChannels m.mApplyTrackGains n
      m.mSources m.mTimesAndSpeed.mTime
      (List.replicate m.mNumChannels (List.replicate m.mBufferSize (0 : ℚ)))).time
      m.mTimesAndSpeed.mT1 m.mTimesAndSpeed.mTime hlo
    rw [if_pos hb, hmin, hmax]
    exact ⟨h.1, le_trans h.2 hhi⟩
  · have hle : m.mTimesAndSpeed.mT0 ≤ m.mTimesAndSpeed.mT1 := le_of_not_lt hb
    have hmin := min_eq_left hle
    have hmax := max_eq_right hle
    rw [hmin] at hlo
    rw [hmax] at hhi
    have h := clampQ_bounds (processLoop m.mNumChannels m.mApplyTrackGains n
      m.mSources m.mTimesAndSpeed.mTime
      (List.replicate m.mNumChannels (List.replicate m.mBufferSize (0 : ℚ)))).time
      m.mTimesAndSpeed.mTime m.mTimesAndSpeed.mT1 hhi
    rw [if_neg (not_lt_of_le hle), hmin, hmax]
    exact ⟨le_trans hlo h.1, h.2⟩

def mixerC3w : Mixer := ⟨1, 4, false, false, ⟨0, 10, 1, 5⟩, [srcC3over]⟩

theorem process_time_in_bounds_witness :
    min mixerC3w.mTimesAndSpeed.mT0 mixerC3w.mTimesAndSpeed.mT1 ≤
      (Mixer.Process mixerC3w 4).time ∧
    (Mixer.Process mixerC3w 4).time ≤
      max mixerC3w.mTimesAndSpeed.mT0 mixerC3w.mTimesAndSpeed.mT1 :=
  process_time_in_bounds mixerC3w 4 (by norm_num [mixerC3w])
    (by norm_num [mixerC3w])
    (by intro s hs; simp [mixerC3w] at hs; subst hs; rfl)

/-- C9: Process never moves the current time against the playback
direction on a call that runs to completion: forward (t0 at most t1) with
entry time within [t0, t1], the time after the call is at least the entry
time; backward (t1 below t0) with entry time within [t1, t0], it is at
most the entry time - because the clamp at Mix.cpp lines 197-200 uses the
entry-time value, not t0, as the near bound. -/
theorem process_time_monotone (m : Mixer) (n : ℕ)
    (hall : ∀ s ∈ m.mSources, (s.acqResult n).isSome = true) :
    (m.mTimesAndSpeed.mT0 ≤ m.mTimesAndSpeed.mT1 →
      m.mTimesAndSpeed.mT0 ≤ m.mTimesAndSpeed.mTime →
      m.mTimesAndSpeed.mTime ≤ m.mTimesAndSpeed.mT1 →
      m.mTimesAndSpeed.mTime ≤ (Mixer.Process m n).time) ∧
    (m.mTimesAndSpeed.mT1 < m.mTimesAndSpeed.mT0 →
      m.mTimesAndSpeed.mT1 ≤ m.mTimesAndSpeed.mTime →
      m.mTimesAndSpeed.mTime ≤ m.mTimesAndSpeed.mT0 →
      (Mixer.Process m n).time ≤ m.mTimesAndSpeed.mTime) := by
  obtain ⟨mo, hmo⟩ := Option.isSome_iff_exists.mp
    (processLoop_complete m.mNumChannels m.mApplyTrackGains n m.mSources
      m.mTimesAndSpeed.mTime
      (List.replicate m.mNumChannels (List.replicate m.mBufferSize (0 : ℚ))) hall)
  simp only [Mixer.Process, hmo]
  constructor
  · intro hdir hlo hhi
    rw [if_neg (not_lt_of_le hdir)]
    exact (clampQ_bounds _ _ _ hhi).1
  · intro hdir hlo hhi
    rw [if_pos hdir]
    exact (clampQ_bounds _ _ _ hlo).2

def srcC9 : SourceModel :=
  ⟨fun _ => some 4, fun _ => 7, 0, fun _ _ => 0,
   fun _ => ChannelType.MonoChannel, fun _ => none, fun _ _ => 1⟩

def mixerC9w : Mixer := ⟨1, 4, false, false, ⟨0, 10, 1, 5⟩, [srcC9]⟩

theorem process_time_monotone_witness :
    mixerC9w.mTimesAndSpeed.mTime ≤ (Mixer.Process mixerC9w 4).time :=
  (process_time_monotone mixerC9w 4
      (by intro s hs; simp [mixerC9w] at hs; subst hs; rfl)).1
    (by norm_num [mixerC9w]) (by norm_num [mixerC9w]) (by norm_num [mixerC9w])

theorem getD_range_map (f : ℕ → Bool) (nc c : ℕ) (h : c < nc) :
    ((List.range nc).map f).getD c false = f c := by
  rw [List.getD_eq_getElem?_getD, List.getElem?_map, List.getElem?_range h]
  rfl

theorem getD_replicate_true (nc c : ℕ) (h : c < nc) :
    (List.replicate nc true).getD c false = true := by
  induction nc generalizing c with
  | zero => omega
  | succ k ih =>
    cases c with
    | zero => rfl
    | succ c => exact ih c (by omega)

/-- C4: the channel-flag computation is a pure function of the explicit
map and the channel role: an explicit map row is copied verbatim with the
role ignored; with no map, role Mono and every unrecognized role flag all
output channels, role Left flags output channel 0 only, and role Right
flags output channel 1 when at least two output channels exist and output
channel 0 otherwise. -/
theorem findChannelFlags_policy (nc : ℕ) :
    (∀ (mp : ℕ → Bool) (role role' : ChannelType),
      findChannelFlags nc (some mp) role = findChannelFlags nc (some mp) role' ∧
      ∀ c, c < nc → (findChannelFlags nc (some mp) role).getD c false = mp c) ∧
    (∀ role : ChannelType, role ≠ ChannelType.LeftChannel →
      role ≠ ChannelType.RightChannel →
      ∀ c, c < nc → (findChannelFlags nc none role).getD c false = true) ∧
    (∀ c, c < nc →
      (findChannelFlags nc none ChannelType.LeftChannel).getD c false = (c == 0)) ∧
    (∀ c, c < nc →
      (findChannelFlags nc none ChannelType.RightChannel).getD c false =
        (c == if 2 ≤ nc then 1 else 0)) := by
  refine ⟨?_, ?_, ?_, ?_⟩
  · intro mp role role'
    exact ⟨rfl, fun c hc => getD_range_map mp nc c hc⟩
  · intro role h1 h2 c hc
    cases role with
    | LeftChannel => exact absurd rfl h1
    | RightChannel => exact absurd rfl h2
    | MonoChannel => exact getD_replicate_true nc c hc
    | OtherChannel => exact getD_replicate_true nc c hc
  · intro c hc
    exact getD_range_map _ nc c hc
  · intro c hc
    by_cases h2 : 2 ≤ nc
    · simp only [findChannelFlags, if_pos h2]
      exact getD_range_map _ nc c hc
    · simp only [findChannelFlags, if_neg h2]
      exact getD_range_map _ nc c hc

theorem findChannelFlags_policy_witness :
    (findChannelFlags 2 none ChannelType.RightChannel).getD 1 false =
      ((1 : ℕ) == if 2 ≤ 2 then 1 else 0) :=
  (findChannelFlags_policy 2).2.2.2 1 (by norm_num)

/-- C8: Reposition(time, isScrubbing) sets the new current time to the
given time clamped into [min(t0,t1), max(t0,t1)], leaves the bounds and
speed unchanged, and asks every Source Adapter to reposition to that
clamped time (with the given skipping flag). -/
theorem reposition_clamps_and_propagates (m : Mixer) (t : ℚ) (b : Bool) :
    (Mixer.Reposition m t b).ts.mTime =
      clampQ t (min m.mTimesAndSpeed.mT0 m.mTimesAndSpeed.mT1)
        (max m.mTimesAndSpeed.mT0 m.mTimesAndSpeed.mT1) ∧
    (Mixer.Reposition m t b).ts.mT0 = m.mTimesAndSpeed.mT0 ∧
    (Mixer.Reposition m t b).ts.mT1 = m.mTimesAndSpeed.mT1 ∧
    (Mixer.Reposition m t b).ts.mSpeed = m.mTimesAndSpeed.mSpeed ∧
    (Mixer.Reposition m t b).sourceCalls =
      m.mSources.map (fun _ => ((Mixer.Reposition m t b).ts.mTime, b)) := by
  by_cases hb : m.mTimesAndSpeed.mT1 < m.mTimesAndSpeed.mT0
  · simp [Mixer.Reposition, hb, min_eq_right hb.le, max_eq_left hb.le]
  · have hle := le_of_not_lt hb
    simp [Mixer.Reposition, hb, min_eq_left hle, max_eq_right hle]

theorem dblMax_nonneg : (0 : ℚ) ≤ dblMax := by norm_num [dblMax]

theorem dblMax_pos : (0 : ℚ) < dblMax := by norm_num [dblMax]

/-- C7: SetSpeedForKeyboardScrubbing: on a direction conflict (positive
speed with t1 below t0, or negative speed with t1 above t0) the bounds are
reset to the sentinel pair (0 and double-max forward; double-max and 0
backward) rather than swapped, and the mixer repositions every source to
startTime (clamped into the new, effectively unbounded range; equal to
startTime whenever it lies in [0, double-max]); in all cases the stored
speed becomes the absolute value of the requested speed.  The model is a
total function: the call does not throw. -/
theorem setSpeedForKeyboardScrubbing_spec (m : Mixer) (speed startTime : ℚ) :
    (speed > 0 → m.mTimesAndSpeed.mT1 < m.mTimesAndSpeed.mT0 →
      (Mixer.SetSpeedForKeyboardScrubbing m speed startTime).ts.mT0 = 0 ∧
      (Mixer.SetSpeedForKeyboardScrubbing m speed startTime).ts.mT1 = dblMax ∧
      (0 ≤ startTime → startTime ≤ dblMax →
        (Mixer.SetSpeedForKeyboardScrubbing m speed startTime).ts.mTime =
          startTime) ∧
      (Mixer.SetSpeedForKeyboardScrubbing m speed startTime).sourceCalls =
        m.mSources.map (fun _ =>
          ((Mixer.SetSpeedForKeyboardScrubbing m speed startTime).ts.mTime,
            true))) ∧
    (speed < 0 → m.mTimesAndSpeed.mT0 < m.mTimesAndSpeed.mT1 →
      (Mixer.SetSpeedForKeyboardScrubbing m speed startTime).ts.mT0 = dblMax ∧
      (Mixer.SetSpeedForKeyboardScrubbing m speed startTime).ts.mT1 = 0 ∧
      (0 ≤ startTime → startTime ≤ dblMax →
        (Mixer.SetSpeedForKeyboardScrubbing m speed startTime).ts.mTime =
          startTime) ∧
      (Mixer.SetSpeedForKeyboardScrubbing m speed startTime).sourceCalls =
        m.mSources.map (fun _ =>
          ((Mixer.SetSpeedForKeyboardScrubbing m speed startTime).ts.mTime,
            true))) ∧
    (Mixer.SetSpeedForKeyboardScrubbing m speed startTime).ts.mSpeed =
      |speed| := by
  refine ⟨?_, ?_, ?_⟩
  · intro hs hd
    have hcond : (speed > 0 ∧ m.mTimesAndSpeed.mT1 < m.mTimesAndSpeed.mT0) ∨
        (speed < 0 ∧ m.mTimesAndSpeed.mT1 > m.mTimesAndSpeed.mT0) :=
      Or.inl ⟨hs, hd⟩
    simp only [Mixer.SetSpeedForKeyboardScrubbing, if_pos hcond,
      if_pos (And.intro hs hd), Mixer.Reposition,
      if_neg (not_lt_of_le dblMax_nonneg)]
    refine ⟨by trivial, by trivial, ?_, by trivial⟩
    intro h0 h1
    exact clampQ_eq_self startTime 0 dblMax h0 h1
  · intro hs hd
    have hcond : (speed > 0 ∧ m.mTimesAndSpeed.mT1 < m.mTimesAndSpeed.mT0) ∨
        (speed < 0 ∧ m.mTimesAndSpeed.mT1 > m.mTimesAndSpeed.mT0) :=
      Or.inr ⟨hs, hd⟩
    have hnot : ¬ (speed > 0 ∧ m.mTimesAndSpeed.mT1 < m.mTimesAndSpeed.mT0) :=
      fun h => absurd hs (not_lt_of_le (le_of_lt h.1))
    simp only [Mixer.SetSpeedForKeyboardScrubbing, if_pos hcond, if_neg hnot,
      Mixer.Reposition, if_pos dblMax_pos]
    refine ⟨by trivial, by trivial, ?_, by trivial⟩
    intro h0 h1
    exact clampQ_eq_self startTime 0 dblMax h0 h1
  · by_cases hcond : (speed > 0 ∧ m.mTimesAndSpeed.mT1 < m.mTimesAndSpeed.mT0) ∨
      (speed < 0 ∧ m.mTimesAndSpeed.mT1 > m.mTimesAndSpeed.mT0)
    · by_cases hfwd : speed > 0 ∧ m.mTimesAndSpeed.mT1 < m.mTimesAndSpeed.mT0
      · simp only [Mixer.SetSpeedForKeyboardScrubbing, if_pos hcond,
          if_pos hfwd, Mixer.Reposition, if_neg (not_lt_of_le dblMax_nonneg)]
      · simp only [Mixer.SetSpeedForKeyboardScrubbing, if_pos hcond,
          if_neg hfwd, Mixer.Reposition, if_pos dblMax_pos]
    · simp only [Mixer.SetSpeedForKeyboardScrubbing, if_neg hcond]

def srcC7 : SourceModel :=
  ⟨fun _ => some 1, fun t => t, 1, fun _ _ => 0,
   fun _ => ChannelType.MonoChannel, fun _ => none, fun _ _ => 1⟩

/-- The direction-flip scenario of the spec: t0 = 0, t1 = 100, speed +1. -/
def mixerC7 : Mixer := ⟨2, 4, false, false, ⟨0, 100, 1, 0⟩, [srcC7]⟩

theorem setSpeedForKeyboardScrubbing_witness :
    (Mixer.SetSpeedForKeyboardScrubbing mixerC7 (-1) 7).ts.mT0 = dblMax ∧
    (Mixer.SetSpeedForKeyboardScrubbing mixerC7 (-1) 7).ts.mT1 = 0 ∧
    (Mixer.SetSpeedForKeyboardScrubbing mixerC7 (-1) 7).ts.mTime = 7 ∧
    (Mixer.SetSpeedForKeyboardScrubbing mixerC7 (-1) 7).sourceCalls =
      [(7, true)] ∧
    (Mixer.SetSpeedForKeyboardScrubbing mixerC7 (-1) 7).ts.mSpeed =
      |(-1 : ℚ)| := by
  have h := setSpeedForKeyboardScrubbing_spec mixerC7 (-1) 7
  have h2 := h.2.1 (by norm_num) (by norm_num [mixerC7])
  have htime : (Mixer.SetSpeedForKeyboardScrubbing mixerC7 (-1) 7).ts.mTime = 7 :=
    h2.2.2.1 (by norm_num) (by norm_num [dblMax])
  refine ⟨h2.1, h2.2.1, htime, ?_, h.2.2⟩
  rw [h2.2.2.2, htime]
  simp [mixerC7]

/-! Construction: mixer-spec validation and buffer layout. -/

theorem mkSourceSpecs_length (pSpec : Option MixerSpec) (nTracks : ℕ) :
    ∀ (counts : List ℕ) (i : ℕ), i + counts.sum ≤ nTracks →
      (mkSourceSpecs pSpec nTracks counts i).length = counts.length := by
  intro counts
  induction counts with
  | nil => intro i _; rfl
  | cons n rest ih =>
    intro i hfit
    simp only [List.sum_cons] at hfit
    have hguard : ¬ (i + n > nTracks) := by omega
    simp only [mkSourceSpecs, if_neg hguard, List.length_cons]
    rw [ih (i + n) (by omega)]

theorem mkSourceSpecs_none (nTracks : ℕ) :
    ∀ (counts : List ℕ) (i : ℕ),
      ∀ row ∈ mkSourceSpecs none nTracks counts i, row = none := by
  intro counts
  induction counts with
  | nil => intro i row hrow; simp [mkSourceSpecs] at hrow
  | cons n rest ih =>
    intro i row hrow
    by_cases hguard : i + n > nTracks
    · simp [mkSourceSpecs, if_pos hguard] at hrow
    · simp only [mkSourceSpecs, if_neg hguard, Option.map_none, List.mem_cons]
        at hrow
      rcases hrow with h | h
      · exact h
      · exact ih (i + n) row h

/-- C6: when the supplied mix specification's output-channel count differs
from numOutChannels or its track count differs from the number of input
tracks, the constructor's filter replaces it by null, every constructed
source receives no spec row (default role-based routing applies), and
construction still builds one source per channel group (it does not
abort). -/
theorem construct_mismatched_spec_ignored (spec : MixerSpec)
    (st et sp : ℚ) (nc bs : ℕ) (il : Bool) (nTracks : ℕ) (counts : List ℕ)
    (hmis : spec.numChannels ≠ nc ∨ spec.numTracks ≠ nTracks)
    (hfit : counts.sum ≤ nTracks) :
    effectiveMixerSpec (some spec) nc nTracks = none ∧
    (∀ row ∈ (Mixer.construct st et sp nc bs il (some spec) nTracks
        counts).sourceSpecs, row = none) ∧
    (Mixer.construct st et sp nc bs il (some spec) nTracks
        counts).sourceSpecs.length = counts.length := by
  have heff : effectiveMixerSpec (some spec) nc nTracks = none := by
    simp only [effectiveMixerSpec]
    rw [if_neg]
    rintro ⟨h1, h2⟩
    rcases hmis with h | h
    · exact h h1
    · exact h h2
  refine ⟨heff, ?_, ?_⟩
  · simp only [Mixer.construct, heff]
    exact mkSourceSpecs_none nTracks counts 0
  · simp only [Mixer.construct, heff]
    exact mkSourceSpecs_length none nTracks counts 0 (by omega)

/-- A 2-out, 3-track spec offered to a mixer with 1 output channel. -/
def specC6 : MixerSpec := ⟨2, 3, fun _ _ => true⟩

theorem construct_mismatched_spec_ignored_witness :
    effectiveMixerSpec (some specC6) 1 3 = none ∧
    (∀ row ∈ (Mixer.construct 0 10 1 1 4 false (some specC6) 3
        [1, 2]).sourceSpecs, row = none) ∧
    (Mixer.construct 0 10 1 1 4 false (some specC6) 3
        [1, 2]).sourceSpecs.length = [1, 2].length :=
  construct_mismatched_spec_ignored specC6 0 10 1 1 4 false 3 [1, 2]
    (Or.inl (by norm_num [specC6])) (by norm_num)

/-- C10: with interleaved output exactly one buffer is allocated, of
sample capacity blockSize * numChannels, so GetBuffer(channel) indexes out
of bounds for every channel at least 1; with planar (non-interleaved)
output GetBuffer(channel) is in bounds for every channel below
numChannels (each buffer holding blockSize samples). -/
theorem interleaved_buffer_layout (st et sp : ℚ) (nc bs : ℕ)
    (spec : Option MixerSpec) (nTracks : ℕ) (counts : List ℕ) :
    (Mixer.construct st et sp nc bs true spec nTracks counts).buffers =
      [bs * nc] ∧
    (∀ ch, 1 ≤ ch →
      Mixer.GetBufferCh
        (Mixer.construct st et sp nc bs true spec nTracks counts) ch = none) ∧
    (∀ ch, ch < nc →
      Mixer.GetBufferCh
        (Mixer.construct st et sp nc bs false spec nTracks counts) ch =
        some bs) := by
  refine ⟨by simp [Mixer.construct], ?_, ?_⟩
  · intro ch hch
    cases ch with
    | zero => omega
    | succ k => simp [Mixer.GetBufferCh, Mixer.construct]
  · intro ch hch
    simp [Mixer.GetBufferCh, Mixer.construct, List.get?_eq_getElem?,
      List.getElem?_replicate, hch]

theorem interleaved_buffer_layout_witness :
    (Mixer.construct 0 10 1 2 512 true none 1 [1]).buffers = [512 * 2] ∧
    Mixer.GetBufferCh (Mixer.construct 0 10 1 2 512 true none 1 [1]) 1 =
      none ∧
    Mixer.GetBufferCh (Mixer.construct 0 10 1 2 512 false none 1 [1]) 1 =
      some 512 := by
  have h := interleaved_buffer_layout 0 10 1 2 512 none 1 [1]
  exact ⟨h.1, h.2.1 1 (by norm_num), h.2.2 1 (by norm_num)⟩

/-! The per-source channel bound of Process. -/

theorem processSourceChannels_congr (nc : ℕ) (ag : Bool) (s s' : SourceModel)
    (count : ℕ)
    (hc : s'.channels = s.channels) (hr : s'.channelType = s.channelType)
    (hm : s'.mixerMap = s.mixerMap) (hg : s'.channelGain = s.channelGain)
    (hd : ∀ j, j < min s.channels floatBuffersChannels →
      s'.floatData j = s.floatData j) :
    ∀ temp, processSourceChannels nc ag s' count temp =
      processSourceChannels nc ag s count temp := by
  intro temp
  unfold processSourceChannels
  rw [hc]
  refine List.foldl_ext _ _ temp ?_
  intro acc j hj
  rw [hr, hm, hg, hd j (List.mem_range.mp hj)]

theorem processLoop_congr_source (nc : ℕ) (ag : Bool) (bound : ℕ)
    (s s' : SourceModel) (post : List SourceModel)
    (ha : s'.acqResult = s.acqResult) (ht : s'.acqTime = s.acqTime)
    (hc : s'.channels = s.channels) (hr : s'.channelType = s.channelType)
    (hm : s'.mixerMap = s.mixerMap) (hg : s'.channelGain = s.channelGain)
    (hd : ∀ j, j < min s.channels floatBuffersChannels →
      s'.floatData j = s.floatData j) :
    ∀ (pre : List SourceModel) (t : ℚ) (temp : List (List ℚ)),
      processLoop nc ag bound (pre ++ s' :: post) t temp =
        processLoop nc ag bound (pre ++ s :: post) t temp := by
  intro pre
  induction pre with
  | nil =>
    intro t temp
    simp only [List.nil_append, processLoop, ha, ht]
    cases hres : s.acqResult bound with
    | none => rfl
    | some n =>
      simp only
      rw [processSourceChannels_congr nc ag s s' n hc hr hm hg hd temp, hc]
  | cons p pre ih =>
    intro t temp
    simp only [List.cons_append, processLoop]
    cases hres : p.acqResult bound with
    | none => rfl
    | some n =>
      simp only [List.append_eq]
      rw [ih]

theorem processLoop_mixedCounts (nc : ℕ) (ag : Bool) (bound : ℕ) :
    ∀ (l : List SourceModel) (t : ℚ) (temp : List (List ℚ)),
      (∀ s ∈ l, (s.acqResult bound).isSome = true) →
      (processLoop nc ag bound l t temp).mixedCounts =
        l.map (fun s => min s.channels floatBuffersChannels) := by
  intro l
  induction l with
  | nil => intro t temp _; rfl
  | cons s rest ih =>
    intro t temp h
    obtain ⟨n, hn⟩ := Option.isSome_iff_exists.mp (h s (by simp))
    simp only [processLoop, hn, List.map_cons]
    rw [ih (s.acqTime t) (processSourceChannels nc ag s n temp)
      (fun p hp => h p (by simp [hp]))]

/-- A stereo source of constant amplitude 1 on both channels. -/
def srcC5 : SourceModel :=
  ⟨fun _ => some 1, fun t => t, 2, fun _ _ => 1,
   fun j => if j = 0 then ChannelType.LeftChannel else ChannelType.RightChannel,
   fun _ => none, fun _ _ => 1⟩

/-- srcC5 with the data of channel index 1 replaced by silence. -/
def srcC5z : SourceModel :=
  { srcC5 with floatData := fun j _ => if j = 0 then 1 else 0 }

/-- srcC5 with the data of channel indices at or beyond 2 altered. -/
def srcC5w : SourceModel :=
  { srcC5 with floatData := fun j _ => if j < 2 then 1 else 5 }

def mixerC5 : Mixer := ⟨1, 1, false, false, ⟨0, 10, 1, 5⟩, [srcC5]⟩

def mixerC5z : Mixer := ⟨1, 1, false, false, ⟨0, 10, 1, 5⟩, [srcC5z]⟩

/-- C5 counterexample: a stereo source mixed into a one-channel output, so
min(sourceChannels, outputChannels) = min 2 1 = 1.  The channel loop of
Process is bounded by the float-buffer channel count 2 instead: it mixes
both source channels (mixedCounts = [2], not [1]), and silencing source
channel index 1 - which by the claim lies beyond the bound and should
contribute nothing - changes the accumulated output from [[2]] to [[1]]. -/
theorem process_channel_bound_cex :
    (Mixer.Process mixerC5 1).mixedCounts ≠ [min 2 1] ∧
    (Mixer.Process mixerC5 1).mixedCounts = [2] ∧
    (Mixer.Process mixerC5 1).temp = [[2]] ∧
    (Mixer.Process mixerC5z 1).temp = [[1]] := by
  refine ⟨?_, ?_, ?_, ?_⟩ <;>
    simp [Mixer.Process, processLoop, processSourceChannels, MixBuffers,
      mixBuffersGo, addSamples, findChannelFlags, clampQ, mixerC5, mixerC5z,
      srcC5, srcC5z, floatBuffersChannels, List.range_succ] <;>
    norm_num

/-- C5 (amended): the per-source channel loop of Process is bounded by
min(sourceChannels, floatBuffersChannels) - the float-buffer channel
capacity hard-coded to 2 - rather than min(sourceChannels,
outputChannels): (a) altering one source's float data only on channel
indices at or beyond min(channels, floatBuffersChannels) leaves the
entire Process result unchanged (those channels contribute nothing), and
(b) on a call whose every Acquire succeeds, the number of channels mixed
for each source is exactly min(channels, floatBuffersChannels). -/
theorem process_channel_bound :
    (∀ (nc bs : ℕ) (ag il : Bool) (ts : TimesAndSpeed)
       (pre post : List SourceModel) (s s' : SourceModel) (n : ℕ),
      s'.acqResult = s.acqResult → s'.acqTime = s.acqTime →
      s'.channels = s.channels → s'.channelType = s.channelType →
      s'.mixerMap = s.mixerMap → s'.channelGain = s.channelGain →
      (∀ j, j < min s.channels floatBuffersChannels →
        s'.floatData j = s.floatData j) →
      Mixer.Process ⟨nc, bs, ag, il, ts, pre ++ s :: post⟩ n =
        Mixer.Process ⟨nc, bs, ag, il, ts, pre ++ s' :: post⟩ n) ∧
    (∀ (m : Mixer) (n : ℕ),
      (∀ s ∈ m.mSources, (s.acqResult n).isSome = true) →
      (Mixer.Process m n).mixedCounts =
        m.mSources.map (fun s => min s.channels floatBuffersChannels)) := by
  constructor
  · intro nc bs ag il ts pre post s s' n ha ht hc hr hm hg hd
    have h := processLoop_congr_source nc ag n s s' post ha ht hc hr hm hg hd
      pre ts.mTime (List.replicate nc (List.replicate bs (0 : ℚ)))
    simp only [Mixer.Process]
    rw [h]
  · intro m n hall
    have h := processLoop_mixedCounts m.mNumChannels m.mApplyTrackGains n
      m.mSources m.mTimesAndSpeed.mTime
      (List.replicate m.mNumChannels (List.replicate m.mBufferSize (0 : ℚ)))
      hall
    simp only [Mixer.Process]
    cases hmo : (processLoop m.mNumChannels m.mApplyTrackGains n m.mSources
        m.mTimesAndSpeed.mTime
        (List.replicate m.mNumChannels
          (List.replicate m.mBufferSize (0 : ℚ)))).maxOut <;>
      simp [hmo, ← h]

theorem process_channel_bound_witness :
    Mixer.Process ⟨1, 1, false, false, ⟨0, 10, 1, 5⟩, [srcC5]⟩ 1 =
      Mixer.Process ⟨1, 1, false, false, ⟨0, 10, 1, 5⟩, [srcC5w]⟩ 1 :=
  process_channel_bound.1 1 1 false false ⟨0, 10, 1, 5⟩ [] [] srcC5 srcC5w 1
    rfl rfl rfl rfl rfl rfl
    (fun j hj => by
      funext k
      simp only [srcC5, srcC5w, floatBuffersChannels] at hj ⊢
      rw [if_pos (by omega : j < 2)])

end Mix
